import Mathlib

/-!
Shallow embedding of the `Fixed32` fixed-point type of `src/fixed.rs`.

Modelling conventions:
* Machine integers (`i32`, `i64`) are modelled as `Int` with explicit
  two's-complement wrapping at 32 bits (`wrap32`); a value is a valid
  `i32` when it satisfies `in32`.
* Operations that can panic in the Rust source under the debug profile —
  the explicit `panic!` calls on exponent mismatch and on a zero divisor,
  overflow of `i32` `+`/`-`, and shift amounts outside the legal range of
  the shifted type — return `Option`, with `none` standing for the abort.
  Rust's `as i32` narrowing cast never panics: it wraps (`wrap32`) from an
  integer type and saturates (`sat32`) from a float.
* The product of two `i32` values always fits in `i64`, so the widened
  64-bit multiplication of the source is exact integer multiplication.
* `f32` values are idealised as rationals: `f32::round` is
  round-half-away-from-zero (`roundAway`) and multiplication/division by
  the power-of-two scale factor is exact.  The precision limit of the
  host's binary32 format itself is not modelled.
-/

/-- Two's-complement wrap of an integer into the signed 32-bit range,
the semantics of Rust's `as i32` narrowing of a wider integer. -/
def wrap32 (x : Int) : Int := (x + 2 ^ 31) % 2 ^ 32 - 2 ^ 31

/-- Membership in the signed 32-bit range: the set of valid `i32` values. -/
def in32 (x : Int) : Prop := -2 ^ 31 ≤ x ∧ x < 2 ^ 31

instance (x : Int) : Decidable (in32 x) := by unfold in32; infer_instance

/-- Saturating clamp into the signed 32-bit range, the semantics of Rust's
`as i32` cast applied to an (integral) float value. -/
def sat32 (x : Int) : Int := max (-2 ^ 31) (min x (2 ^ 31 - 1))

/-- Unsigned 32-bit pattern of an `i32` value (its mantissa bits). -/
def toU32 (x : Int) : Nat := (x % 2 ^ 32).toNat

/-- Rust `i32` bitwise AND `x & y`: AND of the 32-bit patterns, read back
as a signed value. -/
def and32 (x y : Int) : Int := wrap32 ((toU32 x &&& toU32 y : Nat) : Int)

/-- Rust `i32` left shift `x << n` under the debug profile: panics (`none`)
when the shift amount lies outside `[0, 32)`; bits shifted out of the 32-bit
window are silently discarded. -/
def shl32 (x n : Int) : Option Int :=
  if 0 ≤ n ∧ n < 32 then some (wrap32 (x * 2 ^ n.toNat)) else none

/-- Rust `i32` addition under the debug profile: panics (`none`) when the
mathematical sum leaves the signed 32-bit range. -/
def i32add (x y : Int) : Option Int :=
  if in32 (x + y) then some (x + y) else none

/-- Rust `i32` subtraction under the debug profile: panics (`none`) when the
mathematical difference leaves the signed 32-bit range. -/
def i32sub (x y : Int) : Option Int :=
  if in32 (x - y) then some (x - y) else none

/-- The fixed-point type of `src/fixed.rs`: a signed 32-bit mantissa `value`
scaled by `2 ^ (-exp)`. -/
structure Fixed32 where
  value : Int
  exp : Int
deriving DecidableEq

/-- Constructor `Fixed32::new`: stores the pair verbatim. -/
def Fixed32.new (value exp : Int) : Fixed32 := ⟨value, exp⟩

/-- Validity of a `Fixed32`: its mantissa is a genuine `i32`. -/
def Fixed32.Valid (x : Fixed32) : Prop := in32 x.value

instance (x : Fixed32) : Decidable x.Valid := by
  unfold Fixed32.Valid; infer_instance

/-- Scan of `Fixed32::get_leading_one_index`: for `i` descending from the
given start down to `1`, return the first `i` for which the `i32` value
`(1 << i) & v` is strictly positive, and `0` when no test succeeds.  The
mask `1 << i` is the wrapped `i32` power `wrap32 (2 ^ i)` (so `-2^31` at
`i = 31`, whose AND with any `i32` is never positive). -/
def leadScan (v : Int) : Nat → Int
  | 0 => 0
  | i + 1 =>
    if 0 < and32 (wrap32 (2 ^ (i + 1))) v then (i + 1 : Int) else leadScan v i

/-- Method `Fixed32::get_leading_one_index`: scan bits 31 down to 1. -/
def Fixed32.get_leading_one_index (x : Fixed32) : Int := leadScan x.value 31

/-- Operator `Mul for Fixed32`: panics (`none`) on exponent mismatch;
otherwise widens both mantissas to `i64` (exact), forms the product,
arithmetically right-shifts it by the shared exponent — floor division by
`2 ^ exp`, panicking when the shift amount is outside `[0, 64)` — and
narrows back to `i32` with a wrapping `as i32` cast.  The exponent of the
result is the shared input exponent. -/
def Fixed32.mul (a b : Fixed32) : Option Fixed32 :=
  if a.exp ≠ b.exp then none
  else if 0 ≤ a.exp ∧ a.exp < 64 then
    some ⟨wrap32 (Int.fdiv (a.value * b.value) (2 ^ a.exp.toNat)), a.exp⟩
  else none

/-- Operator `Add for Fixed32`: equal exponents add the mantissas directly;
otherwise the mantissa of the smaller-exponent operand is left-shifted by
the exponent difference before adding, and the result carries the larger
exponent. -/
def Fixed32.add (a b : Fixed32) : Option Fixed32 :=
  if a.exp = b.exp then
    (i32add a.value b.value).map fun v => ⟨v, a.exp⟩
  else if a.exp > b.exp then
    (shl32 b.value (a.exp - b.exp)).bind fun s =>
      (i32add a.value s).map fun v => ⟨v, a.exp⟩
  else
    (shl32 a.value (b.exp - a.exp)).bind fun s =>
      (i32add s b.value).map fun v => ⟨v, b.exp⟩

/-- Operator `Sub for Fixed32`: same alignment rule as addition. -/
def Fixed32.sub (a b : Fixed32) : Option Fixed32 :=
  if a.exp = b.exp then
    (i32sub a.value b.value).map fun v => ⟨v, a.exp⟩
  else if a.exp > b.exp then
    (shl32 b.value (a.exp - b.exp)).bind fun s =>
      (i32sub a.value s).map fun v => ⟨v, a.exp⟩
  else
    (shl32 a.value (b.exp - a.exp)).bind fun s =>
      (i32sub s b.value).map fun v => ⟨v, b.exp⟩

/-- One Newton-Raphson step of `Fixed32::reciprocal`: compute
`t1 = result * self`, then `t2 = (1 << (exp + 1)) - t1.value` as an `i32`
(the constant two at the working exponent, minus `t1`'s mantissa), and
finally `result * Fixed32::new(t2, exp)`. -/
def Fixed32.nrStep (x r : Fixed32) : Option Fixed32 :=
  (r.mul x).bind fun t1 =>
    (shl32 1 (x.exp + 1)).bind fun twoMant =>
      (i32sub twoMant t1.value).bind fun t2 =>
        r.mul ⟨t2, x.exp⟩

/-- Iterated Newton-Raphson refinement (the `for _ in 0..5` loop body). -/
def Fixed32.recipLoop (x : Fixed32) : Nat → Fixed32 → Option Fixed32
  | 0, r => some r
  | n + 1, r => (Fixed32.nrStep x r).bind (Fixed32.recipLoop x n)

/-- Method `Fixed32::reciprocal`: the initial guess is the `i32` value
`1 << (exp * 2 - leading_one_index)` at exponent `exp`, refined by five
Newton-Raphson iterations. -/
def Fixed32.reciprocal (x : Fixed32) : Option Fixed32 :=
  (shl32 1 (x.exp * 2 - x.get_leading_one_index)).bind fun guess =>
    Fixed32.recipLoop x 5 ⟨guess, x.exp⟩

/-- Operator `Div for Fixed32`: panics (`none`) on exponent mismatch and on
a zero divisor; otherwise multiplies the dividend by the divisor's
reciprocal. -/
def Fixed32.div (a b : Fixed32) : Option Fixed32 :=
  if a.exp ≠ b.exp then none
  else if b.value = 0 then none
  else b.reciprocal.bind fun r => a.mul r

/-- Rust `f32::round`: round to the nearest integer, ties away from zero. -/
def roundAway (q : ℚ) : Int := if 0 ≤ q then ⌊q + 1 / 2⌋ else ⌈q - 1 / 2⌉

/-- Constructor `Fixed32::from`: scale the float by the `i32` value
`1 << exp` (a panic when `exp` is outside `[0, 32)`), round to the nearest
integer, and narrow with the saturating `as i32` float cast. -/
def Fixed32.fromF32 (v : ℚ) (exp : Int) : Option Fixed32 :=
  (shl32 1 exp).map fun m : Int => ⟨sat32 (roundAway (v * (m : ℚ))), exp⟩

/-- Method `Fixed32::to_f32`: divide the mantissa by the `i32` value
`1 << exp` (a panic when `exp` is outside `[0, 32)`). -/
def Fixed32.to_f32 (x : Fixed32) : Option ℚ :=
  (shl32 1 x.exp).map fun m : Int => (x.value : ℚ) / (m : ℚ)

/-- Scan returning the index of the highest set bit of a 32-bit pattern
(`0` for the zero pattern), reading claim C1's "index of the highest set
bit of the mantissa" over the mantissa's two's-complement bit pattern. -/
def hiBitScan (n : Nat) : Nat → Nat
  | 0 => 0
  | i + 1 => if n.testBit (i + 1) then i + 1 else hiBitScan n i

/-- Index of the highest set bit of the 32-bit two's-complement pattern of
an `i32` value (`0` for value `0`); in particular `31` for every negative
value. -/
def hiBit32 (v : Int) : Int := (hiBitScan (toU32 v) 31 : Nat)

/-- Transcription of claim C1's description of `reciprocal`: an initial
guess of `1` shifted left by `2 * exp - leadingBitIndex`, where
`leadingBitIndex` is the index of the highest set bit of the mantissa (of
its 32-bit pattern, `hiBit32`), placed at exponent `exp`, followed by
exactly five unconditional Newton-Raphson iterations
`result = result * (2 - result * x)` — each multiplication the scaled
multiply of `Fixed32.mul`, the constant two the `i32` `1 << (exp + 1)` at
exponent `exp` — with every panic of the underlying operations aborting
the whole computation. -/
def reciprocalSpecC1 (x : Fixed32) : Option Fixed32 :=
  (shl32 1 (2 * x.exp - hiBit32 x.value)).bind fun guess =>
    (Fixed32.nrStep x ⟨guess, x.exp⟩).bind fun r1 =>
      (Fixed32.nrStep x r1).bind fun r2 =>
        (Fixed32.nrStep x r2).bind fun r3 =>
          (Fixed32.nrStep x r3).bind fun r4 =>
            Fixed32.nrStep x r4
/-! Basic facts about the 32-bit helpers and the bit scan. -/

lemma wrap32_of_in32 {x : Int} (h : in32 x) : wrap32 x = x := by
  unfold wrap32; unfold in32 at h; omega

lemma toU32_wrap32 (x : Int) : toU32 (wrap32 x) = toU32 x := by
  unfold toU32 wrap32; congr 1; omega

lemma toU32_natCast {m : Nat} (h : m < 2 ^ 32) : toU32 (m : Int) = m := by
  unfold toU32; omega

lemma and32_mask_pos {k : Nat} (hk : k ≤ 31) {n : Nat} (hn : n < 2 ^ 31) :
    (0 < and32 (wrap32 (2 ^ k)) (n : Int)) ↔ n.testBit k = true := by
  have hcast : ((2 : Int) ^ k) = ((2 ^ k : Nat) : Int) := by push_cast; ring
  have hn32 : n < 2 ^ 32 := lt_trans hn (by norm_num)
  have h2k31 : (2 : Nat) ^ k ≤ 2 ^ 31 := Nat.pow_le_pow_right (by norm_num) hk
  have h2k32 : (2 : Nat) ^ k < 2 ^ 32 := by omega
  unfold and32
  rw [toU32_wrap32, hcast, toU32_natCast h2k32, toU32_natCast hn32,
    Nat.two_pow_and]
  by_cases hb : n.testBit k
  · have hk30 : k ≤ 30 := by
      by_contra hgt
      have h31 : k = 31 := by omega
      rw [h31] at hb
      rw [Nat.testBit_lt_two_pow hn] at hb
      exact Bool.false_ne_true hb
    have h2k30 : (2 : Nat) ^ k ≤ 2 ^ 30 := Nat.pow_le_pow_right (by norm_num) hk30
    rw [hb]
    have hmul : (2 ^ k * (true : Bool).toNat : Nat) = 2 ^ k := by simp
    rw [hmul]
    have hw : wrap32 ((2 ^ k : Nat) : Int) = ((2 ^ k : Nat) : Int) := by
      apply wrap32_of_in32
      unfold in32
      constructor
      · omega
      · omega
    rw [hw]
    simp only [iff_true]
    have hp : (0 : Nat) < 2 ^ k := Nat.pos_pow_of_pos k (by norm_num)
    omega
  · rw [Bool.not_eq_true] at hb
    rw [hb]
    have hmul : (2 ^ k * (false : Bool).toNat : Nat) = 0 := by simp
    rw [hmul]
    have hz : wrap32 ((0 : Nat) : Int) = 0 := by unfold wrap32; decide
    rw [hz]
    simp [hb]

lemma leadScan_eq_hiBitScan {n : Nat} (hn : n < 2 ^ 31) :
    ∀ i, i ≤ 31 → leadScan (n : Int) i = (hiBitScan n i : Nat) := by
  intro i
  induction i with
  | zero =>
    intro _
    simp only [leadScan, hiBitScan]
    norm_num
  | succ i ih =>
    intro hi
    have hcond := and32_mask_pos (k := i + 1) hi hn
    simp only [leadScan, hiBitScan]
    by_cases hb : n.testBit (i + 1)
    · rw [if_pos (hcond.mpr hb), if_pos hb]
      push_cast; ring
    · rw [if_neg, if_neg hb]
      · exact ih (by omega)
      · intro hpos
        exact hb (hcond.mp hpos)

/-- Equality of the code's leading-one index and the highest-set-bit index
on positive mantissas. -/
lemma get_leading_one_index_eq_hiBit32 (x : Fixed32) (hpos : 0 < x.value)
    (hlt : x.value < 2 ^ 31) : x.get_leading_one_index = hiBit32 x.value := by
  have hcast : x.value = ((x.value.toNat : Nat) : Int) :=
    (Int.toNat_of_nonneg hpos.le).symm
  have hn : x.value.toNat < 2 ^ 31 := by omega
  unfold Fixed32.get_leading_one_index hiBit32
  rw [hcast, toU32_natCast (by omega)]
  exact leadScan_eq_hiBitScan hn 31 (le_refl 31)

/-- Unrolling of the five-iteration loop of `reciprocal` into an explicit
chain of Newton-Raphson steps. -/
lemma recipLoop_five (x r : Fixed32) :
    Fixed32.recipLoop x 5 r =
      (Fixed32.nrStep x r).bind fun r1 =>
        (Fixed32.nrStep x r1).bind fun r2 =>
          (Fixed32.nrStep x r2).bind fun r3 =>
            (Fixed32.nrStep x r3).bind fun r4 =>
              Fixed32.nrStep x r4 := by
  simp only [Fixed32.recipLoop]
  cases Fixed32.nrStep x r with
  | none => rfl
  | some r1 =>
    simp only [Option.some_bind]
    cases Fixed32.nrStep x r1 with
    | none => rfl
    | some r2 =>
      simp only [Option.some_bind]
      cases Fixed32.nrStep x r2 with
      | none => rfl
      | some r3 =>
        simp only [Option.some_bind]
        cases Fixed32.nrStep x r3 with
        | none => rfl
        | some r4 =>
          simp only [Option.some_bind]
          cases Fixed32.nrStep x r4 with
          | none => rfl
          | some r5 => rfl

/-- The bit scan on a zero mantissa always returns 0. -/
lemma leadScan_zero (i : Nat) : leadScan (0 : Int) i = 0 := by
  induction i with
  | zero => rfl
  | succ i ih =>
    simp only [leadScan]
    rw [if_neg, ih]
    intro hpos
    have hz : and32 (wrap32 (2 ^ (i + 1))) 0 = 0 := by
      unfold and32 toU32
      norm_num [Nat.and_zero]
      unfold wrap32
      norm_num
    rw [hz] at hpos
    exact lt_irrefl 0 hpos

/-- Shape of `add` when the left exponent is smaller. -/
lemma add_align_lt (a b : Fixed32) (h : a.exp < b.exp) :
    a.add b = (shl32 a.value (b.exp - a.exp)).bind fun s =>
      (i32add s b.value).map fun v => ⟨v, b.exp⟩ := by
  unfold Fixed32.add
  rw [if_neg (by omega), if_neg (by omega)]

/-- Shape of `add` when the left exponent is larger. -/
lemma add_align_gt (a b : Fixed32) (h : b.exp < a.exp) :
    a.add b = (shl32 b.value (a.exp - b.exp)).bind fun s =>
      (i32add a.value s).map fun v => ⟨v, a.exp⟩ := by
  unfold Fixed32.add
  rw [if_neg (by omega), if_pos (by omega)]

/-- Shape of `sub` when the left exponent is smaller. -/
lemma sub_align_lt (a b : Fixed32) (h : a.exp < b.exp) :
    a.sub b = (shl32 a.value (b.exp - a.exp)).bind fun s =>
      (i32sub s b.value).map fun v => ⟨v, b.exp⟩ := by
  unfold Fixed32.sub
  rw [if_neg (by omega), if_neg (by omega)]

/-- Shape of `sub` when the left exponent is larger. -/
lemma sub_align_gt (a b : Fixed32) (h : b.exp < a.exp) :
    a.sub b = (shl32 b.value (a.exp - b.exp)).bind fun s =>
      (i32sub a.value s).map fun v => ⟨v, a.exp⟩ := by
  unfold Fixed32.sub
  rw [if_neg (by omega), if_pos (by omega)]

/-- C1 (amended): for every `Fixed32` with positive `i32` mantissa,
`reciprocal` computes the initial guess `1 << (2*exp - leadingBitIndex)`
with `leadingBitIndex` the index of the highest set bit of the mantissa,
places it at exponent `exp`, and applies exactly five unconditional
Newton-Raphson iterations `result = result * (2 - result * x)` with the
scaled multiply and the constant two carried as the `i32` `1 << (exp+1)`
at the same exponent; every panic of a constituent operation (shift
amount outside `[0, 32)`, `i32` overflow) aborts the whole computation.
For non-positive mantissas the code diverges from the claim: the bit scan
can never select the sign bit, so its result is not the index of the
highest set bit (see the counterexample). -/
theorem claim_C1 (x : Fixed32) (hpos : 0 < x.value) (hlt : x.value < 2 ^ 31) :
    Fixed32.reciprocal x = reciprocalSpecC1 x := by
  unfold Fixed32.reciprocal reciprocalSpecC1
  rw [get_leading_one_index_eq_hiBit32 x hpos hlt]
  have hexp : x.exp * 2 - hiBit32 x.value = 2 * x.exp - hiBit32 x.value := by
    ring
  rw [hexp]
  cases shl32 1 (2 * x.exp - hiBit32 x.value) with
  | none => rfl
  | some g =>
    simp only [Option.some_bind]
    exact recipLoop_five x ⟨g, x.exp⟩

/-- C1 counterexample: at mantissa `-1` (all 32 bits set) the highest set
bit of the mantissa has index 31, but `get_leading_one_index` returns 30,
so the initial guess — and the final result of `reciprocal` — differ from
the claim's description (`reciprocalSpecC1`). -/
theorem claim_C1_counterexample :
    Fixed32.get_leading_one_index ⟨-1, 24⟩ = 30 ∧ hiBit32 (-1) = 31 ∧
    Fixed32.reciprocal ⟨-1, 24⟩ = some ⟨8388608, 24⟩ ∧
    reciprocalSpecC1 ⟨-1, 24⟩ = some ⟨4194304, 24⟩ ∧
    Fixed32.reciprocal ⟨-1, 24⟩ ≠ reciprocalSpecC1 ⟨-1, 24⟩ := by
  refine ⟨by decide, by decide, by decide, by decide, by decide⟩

/-- C1 witness: the amended claim instantiated at the value `2 / 2^1`. -/
theorem claim_C1_witness :
    Fixed32.reciprocal ⟨2, 1⟩ = reciprocalSpecC1 ⟨2, 1⟩ :=
  claim_C1 ⟨2, 1⟩ (by decide) (by decide)

/-- C4: with matching exponents and a non-zero divisor mantissa, `div`
returns exactly `mul a (reciprocal b)`; moreover at `640/2^5 ÷ 192/2^5`
the result (mantissa 100) differs from what direct truncating integer
division of the mantissas would give (mantissa 96), so division is not
performed as direct integer division. -/
theorem claim_C4 (a b : Fixed32) (he : a.exp = b.exp) (hz : b.value ≠ 0) :
    a.div b = b.reciprocal.bind (fun r => a.mul r) ∧
    Fixed32.div ⟨640, 5⟩ ⟨192, 5⟩ = some ⟨100, 5⟩ ∧
    Int.tdiv 640 192 * 2 ^ 5 = 96 ∧ (100 : Int) ≠ 96 := by
  refine ⟨?_, by decide, by decide, by decide⟩
  unfold Fixed32.div
  rw [if_neg (by omega), if_neg hz]

/-- C4 witness: the theorem applied at `640/2^5` and `192/2^5`. -/
theorem claim_C4_witness :
    Fixed32.div ⟨640, 5⟩ ⟨192, 5⟩ =
      (Fixed32.reciprocal ⟨192, 5⟩).bind fun r => Fixed32.mul ⟨640, 5⟩ r :=
  (claim_C4 ⟨640, 5⟩ ⟨192, 5⟩ rfl (by decide)).1

/-- C5: `mul` and `div` on mismatched exponents abort (`none`) and never
return a numeric result, and `div` with a zero-mantissa divisor aborts. -/
theorem claim_C5 (a b : Fixed32) :
    (a.exp ≠ b.exp → a.mul b = none ∧ a.div b = none) ∧
    (b.value = 0 → a.div b = none) := by
  constructor
  · intro hne
    constructor
    · unfold Fixed32.mul
      rw [if_pos hne]
    · unfold Fixed32.div
      rw [if_pos hne]
  · intro hz
    unfold Fixed32.div
    by_cases hne : a.exp ≠ b.exp
    · rw [if_pos hne]
    · rw [if_neg hne, if_pos hz]

/-- C5 witness: a mismatched-exponent pair and a zero divisor. -/
theorem claim_C5_witness :
    Fixed32.mul ⟨1, 2⟩ ⟨3, 4⟩ = none ∧ Fixed32.div ⟨1, 2⟩ ⟨3, 4⟩ = none ∧
    Fixed32.div ⟨5, 6⟩ ⟨0, 6⟩ = none := by
  have h1 := claim_C5 ⟨1, 2⟩ ⟨3, 4⟩
  have h2 := claim_C5 ⟨5, 6⟩ ⟨0, 6⟩
  exact ⟨(h1.1 (by decide)).1, (h1.1 (by decide)).2, h2.2 rfl⟩

/-- C6 (amended): for every same-exponent pair whose mantissa sum fits in
a signed 32-bit integer, `add` returns the mantissa sum at the shared
exponent.  When the sum overflows, the debug-profile `i32` addition
panics instead of returning a value (see the counterexample), so the
claim's unrestricted "for every pair" fails. -/
theorem claim_C6 (a b : Fixed32) (he : a.exp = b.exp)
    (hs : in32 (a.value + b.value)) :
    a.add b = some ⟨a.value + b.value, a.exp⟩ := by
  unfold Fixed32.add
  rw [if_pos he]
  unfold i32add
  rw [if_pos hs]
  rfl

/-- C6 counterexample: at the same-exponent pair `(i32::MAX)/2^0 + 1/2^0`
the mantissa sum `2^31` overflows, the addition aborts, and no value with
mantissa `a.value + b.value` is returned. -/
theorem claim_C6_counterexample :
    Fixed32.add ⟨2147483647, 0⟩ ⟨1, 0⟩ = none := by decide

/-- C6 witness: the amended claim at the pair `10/2^4 + 15/2^4`. -/
theorem claim_C6_witness :
    Fixed32.add ⟨10, 4⟩ ⟨15, 4⟩ = some ⟨25, 4⟩ := by
  have h := claim_C6 ⟨10, 4⟩ ⟨15, 4⟩ rfl (by decide)
  simpa using h

/-- C9 (amended): for a zero mantissa the leading-bit index evaluates to
0; provided the guess shift `2*exp` lies in `[0, 32)`, `reciprocal` does
not signal any fault: the initial guess becomes `1 << (2*exp)` and the
five Newton-Raphson iterations run and return an ordinary value (each
iteration doubles the guess, giving final mantissa `wrap32 (2^(2*exp+5))`)
even though the true reciprocal is undefined; only `div` checks for a
zero divisor.  When `2*exp ≥ 32` — for instance at the spec's working
exponent 24 — `reciprocal` of a zero mantissa panics on the guess shift
(a shift-range fault, still not a division-by-zero check), so the claim's
"for every exponent" form fails (see the counterexample). -/
theorem claim_C9 (e : Int) (h0 : 0 ≤ e) (h1 : 2 * e < 32) :
    Fixed32.get_leading_one_index ⟨0, e⟩ = 0 ∧
    Fixed32.reciprocal ⟨0, e⟩ = some ⟨wrap32 (2 ^ (2 * e.toNat + 5)), e⟩ ∧
    ∀ a : Fixed32, Fixed32.div a ⟨0, e⟩ = none := by
  have h15 : e ≤ 15 := by omega
  refine ⟨?_, ?_, ?_⟩
  · unfold Fixed32.get_leading_one_index
    exact leadScan_zero 31
  · interval_cases e <;> decide
  · intro a
    unfold Fixed32.div
    by_cases hne : a.exp ≠ e
    · rw [if_pos hne]
    · rw [if_neg hne, if_pos rfl]

/-- C9 counterexample: at exponent 24 (the spec's working exponent) the
guess shift amount `2*24 = 48` is out of range, so `reciprocal` of the
zero mantissa aborts instead of running the iterations. -/
theorem claim_C9_counterexample : Fixed32.reciprocal ⟨0, 24⟩ = none := by
  decide

/-- C9 witness: the amended claim at exponent 4. -/
theorem claim_C9_witness :
    Fixed32.get_leading_one_index ⟨0, 4⟩ = 0 ∧
    Fixed32.reciprocal ⟨0, 4⟩ =
      some ⟨wrap32 (2 ^ (2 * (4 : Int).toNat + 5)), 4⟩ ∧
    ∀ a : Fixed32, Fixed32.div a ⟨0, 4⟩ = none :=
  claim_C9 4 (by decide) (by decide)

/-- C10 (amended): the alignment shift of `add`/`sub` is only well-defined
for exponent differences below 32 — at 32 or more the shift amount is out
of range for the 32-bit mantissa and both operations fault.  Below 32,
with the shifted mantissa fitting in 32 bits AND the combined (aligned)
mantissa also fitting in 32 bits, the alignment branch is total.  The
extra combined-fit condition is forced by the counterexample: the
aligned addition itself can overflow and fault even when the shift is in
range and lossless, so the claim's precondition alone does not make the
branch total. -/
theorem claim_C10 (a b : Fixed32) (hne : a.exp ≠ b.exp) :
    (32 ≤ (a.exp - b.exp).natAbs → a.add b = none ∧ a.sub b = none) ∧
    ((a.exp - b.exp).natAbs < 32 →
      in32 ((if b.exp < a.exp then b.value else a.value) *
        2 ^ (a.exp - b.exp).natAbs) →
      (in32 (if b.exp < a.exp then
              a.value + b.value * 2 ^ (a.exp - b.exp).natAbs
            else a.value * 2 ^ (a.exp - b.exp).natAbs + b.value) →
        ∃ c, a.add b = some c) ∧
      (in32 (if b.exp < a.exp then
              a.value - b.value * 2 ^ (a.exp - b.exp).natAbs
            else a.value * 2 ^ (a.exp - b.exp).natAbs - b.value) →
        ∃ c, a.sub b = some c)) := by
  constructor
  · intro h32
    rcases lt_or_gt_of_ne hne with hab | hba
    · rw [add_align_lt a b hab, sub_align_lt a b hab]
      unfold shl32
      rw [if_neg (by omega)]
      exact ⟨rfl, rfl⟩
    · rw [add_align_gt a b hba, sub_align_gt a b hba]
      unfold shl32
      rw [if_neg (by omega)]
      exact ⟨rfl, rfl⟩
  · intro hdlt hsh
    rcases lt_or_gt_of_ne hne with hab | hba
    · have hnotlt : ¬ b.exp < a.exp := by omega
      rw [if_neg hnotlt] at hsh
      have ht : (b.exp - a.exp).toNat = (a.exp - b.exp).natAbs := by omega
      constructor
      · intro hsum
        rw [if_neg hnotlt] at hsum
        rw [add_align_lt a b hab]
        unfold shl32
        rw [if_pos (by omega), ht, wrap32_of_in32 hsh]
        simp only [Option.some_bind]
        unfold i32add
        rw [if_pos hsum]
        exact ⟨_, rfl⟩
      · intro hdiff
        rw [if_neg hnotlt] at hdiff
        rw [sub_align_lt a b hab]
        unfold shl32
        rw [if_pos (by omega), ht, wrap32_of_in32 hsh]
        simp only [Option.some_bind]
        unfold i32sub
        rw [if_pos hdiff]
        exact ⟨_, rfl⟩
    · have hlt : b.exp < a.exp := hba
      rw [if_pos hlt] at hsh
      have ht : (a.exp - b.exp).toNat = (a.exp - b.exp).natAbs := by omega
      constructor
      · intro hsum
        rw [if_pos hlt] at hsum
        rw [add_align_gt a b hba]
        unfold shl32
        rw [if_pos (by omega), ht, wrap32_of_in32 hsh]
        simp only [Option.some_bind]
        unfold i32add
        rw [if_pos hsum]
        exact ⟨_, rfl⟩
      · intro hdiff
        rw [if_pos hlt] at hdiff
        rw [sub_align_gt a b hba]
        unfold shl32
        rw [if_pos (by omega), ht, wrap32_of_in32 hsh]
        simp only [Option.some_bind]
        unfold i32sub
        rw [if_pos hdiff]
        exact ⟨_, rfl⟩

/-- C10 counterexample: at `(i32::MAX)/2^1 + 1/2^0` the exponent
difference is 1 (< 32) and the shifted mantissa `1 << 1 = 2` fits in 32
bits, yet `add` faults — the aligned addition overflows — so the claimed
precondition does not make the alignment branch total. -/
theorem claim_C10_counterexample :
    ((1 : Int) - 0).natAbs < 32 ∧ in32 ((1 : Int) * 2 ^ ((1 : Int) - 0).natAbs) ∧
    Fixed32.add ⟨2147483647, 1⟩ ⟨1, 0⟩ = none := by
  refine ⟨by decide, by decide, by decide⟩

/-- C10 witness: the fault half at exponent difference 33, and the
totality half at `40/2^5` and `15/2^3`. -/
theorem claim_C10_witness :
    (Fixed32.add ⟨1, 0⟩ ⟨1, 33⟩ = none ∧ Fixed32.sub ⟨1, 0⟩ ⟨1, 33⟩ = none) ∧
    (∃ c, Fixed32.add ⟨40, 5⟩ ⟨15, 3⟩ = some c) ∧
    (∃ c, Fixed32.sub ⟨40, 5⟩ ⟨15, 3⟩ = some c) := by
  have h1 := claim_C10 ⟨1, 0⟩ ⟨1, 33⟩ (by decide)
  have h2 := claim_C10 ⟨40, 5⟩ ⟨15, 3⟩ (by decide)
  exact ⟨h1.1 (by decide), (h2.2 (by decide) (by decide)).1 (by decide),
    (h2.2 (by decide) (by decide)).2 (by decide)⟩

/-- C3: for every pair of valid `Fixed32` values sharing an exponent in
the shift-legal range `[0, 64)` (the spec's convention keeps exponents
non-negative and small), `mul` returns the 64-bit product — which always
fits in a signed 64-bit integer, as the bounds conjuncts state —
arithmetically right-shifted by the shared exponent (floor division,
truncating toward negative infinity, as the last two conjuncts
characterise), narrowed back to 32 bits by wrapping, at the unchanged
input exponent. -/
theorem claim_C3 (a b : Fixed32) (ha : a.Valid) (hb : b.Valid)
    (he : a.exp = b.exp) (h0 : 0 ≤ a.exp) (h1 : a.exp < 64) :
    a.mul b =
      some ⟨wrap32 (Int.fdiv (a.value * b.value) (2 ^ a.exp.toNat)), a.exp⟩ ∧
    -2 ^ 62 ≤ a.value * b.value ∧ a.value * b.value ≤ 2 ^ 62 ∧
    Int.fdiv (a.value * b.value) (2 ^ a.exp.toNat) * 2 ^ a.exp.toNat ≤
      a.value * b.value ∧
    a.value * b.value <
      (Int.fdiv (a.value * b.value) (2 ^ a.exp.toNat) + 1) * 2 ^ a.exp.toNat := by
  have ha' : -2 ^ 31 ≤ a.value ∧ a.value < 2 ^ 31 := ha
  have hb' : -2 ^ 31 ≤ b.value ∧ b.value < 2 ^ 31 := hb
  have hd : (0 : Int) < 2 ^ a.exp.toNat := by positivity
  have hfd : Int.fdiv (a.value * b.value) (2 ^ a.exp.toNat) =
      a.value * b.value / 2 ^ a.exp.toNat := Int.fdiv_eq_ediv _ hd.le
  have habs : |a.value * b.value| ≤ 2 ^ 62 := by
    rw [abs_mul]
    have h1a : |a.value| ≤ 2 ^ 31 := abs_le.mpr ⟨ha'.1, ha'.2.le⟩
    have h1b : |b.value| ≤ 2 ^ 31 := abs_le.mpr ⟨hb'.1, hb'.2.le⟩
    calc |a.value| * |b.value| ≤ 2 ^ 31 * 2 ^ 31 :=
          mul_le_mul h1a h1b (abs_nonneg _) (by positivity)
      _ = 2 ^ 62 := by norm_num
  have hbounds := abs_le.mp habs
  have heq := Int.ediv_add_emod (a.value * b.value) (2 ^ a.exp.toNat)
  have hm1 := Int.emod_nonneg (a.value * b.value) (ne_of_gt hd)
  have hm2 := Int.emod_lt_of_pos (a.value * b.value) hd
  refine ⟨?_, hbounds.1, hbounds.2, ?_, ?_⟩
  · unfold Fixed32.mul
    rw [if_neg (by omega), if_pos ⟨h0, h1⟩]
  · rw [hfd,
      mul_comm (a.value * b.value / 2 ^ a.exp.toNat) (2 ^ a.exp.toNat)]
    linarith
  · rw [hfd, add_mul, one_mul,
      mul_comm (a.value * b.value / 2 ^ a.exp.toNat) (2 ^ a.exp.toNat)]
    linarith

/-- C3 witness: the theorem at `6/2^2 * 10/2^2`. -/
theorem claim_C3_witness :
    Fixed32.mul ⟨6, 2⟩ ⟨10, 2⟩ =
      some ⟨wrap32 (Int.fdiv ((6 : Int) * 10) (2 ^ (2 : Int).toNat)), 2⟩ ∧
    -2 ^ 62 ≤ (6 : Int) * 10 ∧ (6 : Int) * 10 ≤ 2 ^ 62 ∧
    Int.fdiv ((6 : Int) * 10) (2 ^ (2 : Int).toNat) * 2 ^ (2 : Int).toNat ≤
      (6 : Int) * 10 ∧
    (6 : Int) * 10 <
      (Int.fdiv ((6 : Int) * 10) (2 ^ (2 : Int).toNat) + 1) * 2 ^ (2 : Int).toNat :=
  claim_C3 ⟨6, 2⟩ ⟨10, 2⟩ (by decide) (by decide) rfl (by decide) (by decide)

/-- C7 (amended): for pairs with differing exponents whose alignment
shift is in range and lossless AND whose aligned mantissa sum also fits
in 32 bits, `add` left-shifts the smaller-exponent mantissa by the
exponent difference, returns the larger exponent, and the result equals
the exact rational sum `a.value * 2^(-a.exp) + b.value * 2^(-b.exp)` —
the alignment itself introduces no rounding.  The extra sum-fit proviso
is forced by the counterexample: with only the claim's shift proviso the
final aligned addition can overflow and abort, returning no result at
all. -/
theorem claim_C7 (a b : Fixed32) (hne : a.exp ≠ b.exp)
    (hd : (a.exp - b.exp).natAbs < 32)
    (hsh : in32 ((if b.exp < a.exp then b.value else a.value) *
      2 ^ (a.exp - b.exp).natAbs))
    (hsum : in32 (if b.exp < a.exp then
        a.value + b.value * 2 ^ (a.exp - b.exp).natAbs
      else a.value * 2 ^ (a.exp - b.exp).natAbs + b.value)) :
    ∃ c, a.add b = some c ∧ c.exp = max a.exp b.exp ∧
      (c.value : ℚ) * (2 : ℚ) ^ (-c.exp) =
        (a.value : ℚ) * (2 : ℚ) ^ (-a.exp) +
          (b.value : ℚ) * (2 : ℚ) ^ (-b.exp) := by
  rcases lt_or_gt_of_ne hne with hab | hba
  · have hnotlt : ¬ b.exp < a.exp := by omega
    rw [if_neg hnotlt] at hsh hsum
    have ht : (b.exp - a.exp).toNat = (a.exp - b.exp).natAbs := by omega
    refine ⟨⟨a.value * 2 ^ (a.exp - b.exp).natAbs + b.value, b.exp⟩, ?_, ?_, ?_⟩
    · rw [add_align_lt a b hab]
      unfold shl32
      rw [if_pos (by omega), ht, wrap32_of_in32 hsh]
      simp only [Option.some_bind]
      unfold i32add
      rw [if_pos hsum]
      rfl
    · exact (max_eq_right hab.le).symm
    · have h2 : ((2 : ℚ) ^ (a.exp - b.exp).natAbs) * (2 : ℚ) ^ (-b.exp) =
          (2 : ℚ) ^ (-a.exp) := by
        rw [← zpow_natCast (2 : ℚ) (a.exp - b.exp).natAbs,
          ← zpow_add₀ (two_ne_zero)]
        congr 1
        omega
      push_cast
      linear_combination (a.value : ℚ) * h2
  · rw [if_pos hba] at hsh hsum
    have ht : (a.exp - b.exp).toNat = (a.exp - b.exp).natAbs := by omega
    refine ⟨⟨a.value + b.value * 2 ^ (a.exp - b.exp).natAbs, a.exp⟩, ?_, ?_, ?_⟩
    · rw [add_align_gt a b hba]
      unfold shl32
      rw [if_pos (by omega), ht, wrap32_of_in32 hsh]
      simp only [Option.some_bind]
      unfold i32add
      rw [if_pos hsum]
      rfl
    · exact (max_eq_left hba.le).symm
    · have h2 : ((2 : ℚ) ^ (a.exp - b.exp).natAbs) * (2 : ℚ) ^ (-a.exp) =
          (2 : ℚ) ^ (-b.exp) := by
        rw [← zpow_natCast (2 : ℚ) (a.exp - b.exp).natAbs,
          ← zpow_add₀ (two_ne_zero)]
        congr 1
        omega
      push_cast
      linear_combination (b.value : ℚ) * h2

/-- C7 witness: the theorem at `10/2^3 + 15/2^2` (result `40/2^3 = 5`). -/
theorem claim_C7_witness :
    ∃ c, Fixed32.add ⟨10, 3⟩ ⟨15, 2⟩ = some c ∧ c.exp = max (3 : Int) 2 ∧
      (c.value : ℚ) * (2 : ℚ) ^ (-c.exp) =
        ((10 : Int) : ℚ) * (2 : ℚ) ^ (-(3 : Int)) +
          ((15 : Int) : ℚ) * (2 : ℚ) ^ (-(2 : Int)) :=
  claim_C7 ⟨10, 3⟩ ⟨15, 2⟩ (by decide) (by decide) (by decide) (by decide)

/-- Saturation is the identity on values already in the signed 32-bit
range. -/
lemma sat32_of_in32 {x : Int} (h : in32 x) : sat32 x = x := by
  unfold sat32
  unfold in32 at h
  rw [min_eq_left (by omega), max_eq_right (by omega)]

/-- Round-half-away-from-zero differs from its argument by at most one
half. -/
lemma roundAway_abs_le (q : ℚ) : |(roundAway q : ℚ) - q| ≤ 1 / 2 := by
  unfold roundAway
  by_cases h : 0 ≤ q
  · rw [if_pos h]
    have h1 : ((⌊q + 1 / 2⌋ : Int) : ℚ) ≤ q + 1 / 2 := Int.floor_le _
    have h2 : q + 1 / 2 < ((⌊q + 1 / 2⌋ : Int) : ℚ) + 1 := Int.lt_floor_add_one _
    rw [abs_le]
    constructor <;> linarith
  · rw [if_neg h]
    have h1 : q - 1 / 2 ≤ ((⌈q - 1 / 2⌉ : Int) : ℚ) := Int.le_ceil _
    have h2 : ((⌈q - 1 / 2⌉ : Int) : ℚ) < q - 1 / 2 + 1 := Int.ceil_lt_add_one _
    rw [abs_le]
    constructor <;> linarith

/-- The wrapped scale factor `1 << exp` has absolute value `2 ^ exp` and is
non-zero for every exponent in the legal shift range (at `exp = 31` it is
the negative value `-2^31`). -/
lemma wrap32_pow_abs {e : Int} (h0 : 0 ≤ e) (h1 : e < 32) :
    |wrap32 (2 ^ e.toNat)| = 2 ^ e.toNat ∧ wrap32 (2 ^ e.toNat) ≠ 0 := by
  by_cases h30 : e ≤ 30
  · have hp : (0 : Int) < 2 ^ e.toNat := by positivity
    have hub : (2 : Int) ^ e.toNat ≤ 2 ^ 30 :=
      pow_le_pow_right₀ (by norm_num) (by omega)
    have hin : in32 ((2 : Int) ^ e.toNat) := by
      constructor
      · omega
      · omega
    rw [wrap32_of_in32 hin]
    exact ⟨abs_of_pos hp, ne_of_gt hp⟩
  · have h31 : e = 31 := by omega
    rw [h31]
    decide

/-- C8 (amended): for exponents in the legal shift range `[0, 32)` and
floats whose scaled rounding stays inside the signed 32-bit range, the
round trip `to_f32 (from v exp)` approximates `v` within the rounding
quantum `2^-(exp+1)`.  Outside those conditions the claim fails: the
saturating float-to-int cast clamps large values (see the
counterexample) and out-of-range exponents make the scale shift panic. -/
theorem claim_C8 (v : ℚ) (e : Int) (h0 : 0 ≤ e) (h1 : e < 32)
    (hr : in32 (roundAway (v * (wrap32 (2 ^ e.toNat) : ℚ)))) :
    ∃ x q, Fixed32.fromF32 v e = some x ∧ Fixed32.to_f32 x = some q ∧
      |q - v| ≤ (2 : ℚ) ^ (-(e + 1)) := by
  rcases wrap32_pow_abs h0 h1 with ⟨habs, hne0⟩
  have hshl : shl32 1 e = some (wrap32 (2 ^ e.toNat)) := by
    unfold shl32
    rw [if_pos ⟨h0, h1⟩, one_mul]
  refine ⟨⟨roundAway (v * ((wrap32 (2 ^ e.toNat) : Int) : ℚ)), e⟩,
    ((roundAway (v * ((wrap32 (2 ^ e.toNat) : Int) : ℚ)) : Int) : ℚ) /
      ((wrap32 (2 ^ e.toNat) : Int) : ℚ), ?_, ?_, ?_⟩
  · unfold Fixed32.fromF32
    rw [hshl]
    simp only [Option.map_some']
    rw [sat32_of_in32 hr]
  · unfold Fixed32.to_f32
    show ((shl32 1 e).map fun m : Int =>
      ((roundAway (v * ((wrap32 (2 ^ e.toNat) : Int) : ℚ)) : Int) : ℚ) /
        (m : ℚ)) = _
    rw [hshl]
    rfl
  · have hmQ : ((wrap32 (2 ^ e.toNat) : Int) : ℚ) ≠ 0 :=
      Int.cast_ne_zero.mpr hne0
    have hdiffeq :
        ((roundAway (v * ((wrap32 (2 ^ e.toNat) : Int) : ℚ)) : Int) : ℚ) /
            ((wrap32 (2 ^ e.toNat) : Int) : ℚ) - v =
          (((roundAway (v * ((wrap32 (2 ^ e.toNat) : Int) : ℚ)) : Int) : ℚ) -
            v * ((wrap32 (2 ^ e.toNat) : Int) : ℚ)) /
            ((wrap32 (2 ^ e.toNat) : Int) : ℚ) := by
      field_simp
      ring
    rw [hdiffeq, abs_div]
    have habsQ : |((wrap32 (2 ^ e.toNat) : Int) : ℚ)| = (2 : ℚ) ^ e.toNat := by
      rw [← Int.cast_abs, habs]
      push_cast
      ring
    rw [habsQ]
    have hq : (1 / 2 : ℚ) / (2 : ℚ) ^ e.toNat = (2 : ℚ) ^ (-(e + 1)) := by
      have he1 : -(e + 1) = -(((e.toNat + 1 : Nat) : Int)) := by omega
      rw [he1, zpow_neg, zpow_natCast, pow_succ]
      field_simp
      ring
    rw [← hq]
    have hround := roundAway_abs_le (v * ((wrap32 (2 ^ e.toNat) : Int) : ℚ))
    exact (div_le_div_iff_of_pos_right (by positivity)).mpr hround

/-- C8 counterexample: at `v = 2^32`, exponent 0, the rounded scaled value
saturates to `i32::MAX`, and the round trip misses `v` by almost `2^31`,
far beyond the quantum `2^-(0+1)`. -/
theorem claim_C8_counterexample :
    Fixed32.fromF32 (2 ^ 32 : ℚ) 0 = some ⟨2147483647, 0⟩ ∧
    Fixed32.to_f32 ⟨2147483647, 0⟩ = some (2147483647 : ℚ) ∧
    ¬ (|(2147483647 : ℚ) - 2 ^ 32| ≤ (2 : ℚ) ^ (-((0 : Int) + 1))) := by
  have hshl : shl32 1 0 = some 1 := by decide
  refine ⟨?_, ?_, ?_⟩
  · simp only [Fixed32.fromF32, hshl, Option.map_some']
    norm_num [roundAway, sat32]
  · simp only [Fixed32.to_f32, hshl, Option.map_some']
    norm_num
  · intro habs
    rw [abs_le] at habs
    have h2 : ((2 : ℚ) ^ (-((0 : Int) + 1))) = 1 / 2 := by norm_num
    rw [h2] at habs
    norm_num at habs

/-- C8 witness: the amended claim at `v = 3/4`, exponent 4 (exact round
trip). -/
theorem claim_C8_witness :
    ∃ x q, Fixed32.fromF32 (3 / 4) 4 = some x ∧ Fixed32.to_f32 x = some q ∧
      |q - 3 / 4| ≤ (2 : ℚ) ^ (-((4 : Int) + 1)) :=
  claim_C8 (3 / 4) 4 (by decide) (by decide)
    (by
      have hw : wrap32 (2 ^ (4 : Int).toNat) = 16 := by decide
      rw [hw]
      norm_num [roundAway, in32])

/-- C2: for each divisor in {0.22, 3.15, 107.4, 0.008375}, converting to
fixed point at exponent 24, taking the reciprocal, and converting back
yields a value within 10% relative error of the true reciprocal (the
spec's `diff` measure `|exact - approx| / exact` with `exact = 1/d`).
Floats are idealised as exact rationals, a negligible difference against
the 10% tolerance. -/
theorem claim_C2 :
    (Fixed32.fromF32 (22 / 100) 24 = some ⟨3690988, 24⟩ ∧
      Fixed32.reciprocal ⟨3690988, 24⟩ = some ⟨76248361, 24⟩ ∧
      Fixed32.to_f32 ⟨76248361, 24⟩ = some (76248361 / 16777216) ∧
      |(100 / 22 : ℚ) - 76248361 / 16777216| < (1 / 10) * (100 / 22)) ∧
    (Fixed32.fromF32 (315 / 100) 24 = some ⟨52848230, 24⟩ ∧
      Fixed32.reciprocal ⟨52848230, 24⟩ = some ⟨5326100, 24⟩ ∧
      Fixed32.to_f32 ⟨5326100, 24⟩ = some (5326100 / 16777216) ∧
      |(100 / 315 : ℚ) - 5326100 / 16777216| < (1 / 10) * (100 / 315)) ∧
    (Fixed32.fromF32 (1074 / 10) 24 = some ⟨1801872998, 24⟩ ∧
      Fixed32.reciprocal ⟨1801872998, 24⟩ = some ⟨156211, 24⟩ ∧
      Fixed32.to_f32 ⟨156211, 24⟩ = some (156211 / 16777216) ∧
      |(10 / 1074 : ℚ) - 156211 / 16777216| < (1 / 10) * (10 / 1074)) ∧
    (Fixed32.fromF32 (8375 / 1000000) 24 = some ⟨140509, 24⟩ ∧
      Fixed32.reciprocal ⟨140509, 24⟩ = some ⟨2003252349, 24⟩ ∧
      Fixed32.to_f32 ⟨2003252349, 24⟩ = some (2003252349 / 16777216) ∧
      |(1000000 / 8375 : ℚ) - 2003252349 / 16777216| <
        (1 / 10) * (1000000 / 8375)) := by
  have hshl : shl32 1 24 = some 16777216 := by decide
  refine ⟨⟨?_, by decide, ?_, ?_⟩, ⟨?_, by decide, ?_, ?_⟩,
    ⟨?_, by decide, ?_, ?_⟩, ⟨?_, by decide, ?_, ?_⟩⟩
  · simp only [Fixed32.fromF32, hshl, Option.map_some']
    norm_num [roundAway, sat32]
  · simp only [Fixed32.to_f32, hshl, Option.map_some']
    norm_num
  · rw [abs_lt]
    constructor <;> norm_num
  · simp only [Fixed32.fromF32, hshl, Option.map_some']
    norm_num [roundAway, sat32]
  · simp only [Fixed32.to_f32, hshl, Option.map_some']
    norm_num
  · rw [abs_lt]
    constructor <;> norm_num
  · simp only [Fixed32.fromF32, hshl, Option.map_some']
    norm_num [roundAway, sat32]
  · simp only [Fixed32.to_f32, hshl, Option.map_some']
    norm_num
  · rw [abs_lt]
    constructor <;> norm_num
  · simp only [Fixed32.fromF32, hshl, Option.map_some']
    norm_num [roundAway, sat32]
  · simp only [Fixed32.to_f32, hshl, Option.map_some']
    norm_num
  · rw [abs_lt]
    constructor <;> norm_num

/-- C7 counterexample: at `(i32::MAX)/2^2 + 1/2^0` the exponent
difference is 2 (shift in range) and the shifted mantissa `1 << 2 = 4`
fits in 32 bits, yet `add` aborts on the overflowing aligned sum and
returns no result, contradicting the claim's "returns a result ...
equals the exact rational sum" under its shift-only proviso. -/
theorem claim_C7_counterexample :
    ((2 : Int) - 0).natAbs < 32 ∧ in32 ((1 : Int) * 2 ^ ((2 : Int) - 0).natAbs) ∧
    Fixed32.add ⟨2147483647, 2⟩ ⟨1, 0⟩ = none := by
  refine ⟨by decide, by decide, by decide⟩
